import Mathlib

/-!
Verification of the unit conversion engine of the recipe-manager repository
(`src/unit_converter.py`).  The conversion table is a JSON object mapping a
unit name to a mapping from target unit names to rational factors; we embed it
as an association list preserving iteration order.  The process-wide cache
(`UnitConverter._conversion_factors` together with the single-slot
`lru_cache`) and the default source path are embedded as an explicit
`ConverterState` threaded through the operations, and the file system is a
function from paths to source contents.
-/

namespace UnitConverter

/-- A conversion table: unit name, then list of (target unit, factor) pairs,
in the iteration order of the underlying JSON object / Python dict. -/
abbrev Table := List (String × List (String × ℚ))

/-- A conversion path as built by `find_conversion_path`: a list of
(from_unit, to_unit, factor) triples. -/
abbrev ConvPath := List (String × String × ℚ)

/-- Membership test `u in factors` plus access `factors[u]` on the outer dict. -/
def lookupUnit (factors : Table) (u : String) : Option (List (String × ℚ)) :=
  (factors.find? (fun p => p.1 == u)).map (fun p => p.2)

/-- Combined test `u in factors and v in factors[u]` plus access
`factors[u][v]`. -/
def lookupEdge (factors : Table) (u v : String) : Option ℚ :=
  match lookupUnit factors u with
  | some l => (l.find? (fun q => q.1 == v)).map (fun q => q.2)
  | none => none

/-- The iteration `for intermediate_unit in factors.get(current_unit, {})`. -/
def neighbors (factors : Table) (u : String) : List (String × ℚ) :=
  (lookupUnit factors u).getD []

/-- The mutation `visited.add(current_unit)` on the Python set, embedded on
lists: add the unit in front unless it is already present. -/
def addVisited (u : String) (visited : List String) : List String :=
  if u ∈ visited then visited else u :: visited

/-- The loop body of `find_conversion_path` over the intermediate units of
`current`: skip visited neighbors, recurse (via the supplied `find`, which is
the search at one fuel step less) into the first unvisited neighbor, keep the
updated visited set when the recursive call fails, and prepend the edge to the
returned path when it succeeds.  `none` signals fuel exhaustion (which never
happens at the fuel used by `find_conversion_path`; see
`findAux_complete_fuel`). -/
def goAux (find : String → List String → Option (Option ConvPath × List String))
    (current : String) : List (String × ℚ) → List String →
    Option (Option ConvPath × List String)
  | [], visited => some (none, visited)
  | (inter, f) :: rest, visited =>
    if inter ∈ visited then goAux find current rest visited
    else
      match find inter visited with
      | none => none
      | some (some p, v') => some (some ((current, inter, f) :: p), v')
      | some (none, v') => goAux find current rest v'

/-- The recursive `find_conversion_path(current_unit, target_unit, visited)`:
mark `current` visited, return the single direct edge when
`target_unit in factors[current_unit]`, otherwise scan the outgoing neighbors.
The extra fuel argument bounds the recursion depth; the returned visited list
realises the shared mutable Python set. -/
def findAux (factors : Table) (target : String) :
    Nat → String → List String → Option (Option ConvPath × List String)
  | 0, _, _ => none
  | fuel + 1, current, visited =>
    let visited1 := addVisited current visited
    match lookupEdge factors current target with
    | some f => some (some [(current, target, f)], visited1)
    | none => goAux (findAux factors target fuel) current (neighbors factors current) visited1

/-- All unit names occurring in the table, as source keys or as targets. -/
def allUnitNames (factors : Table) : List String :=
  (factors.map (fun p => p.1 :: p.2.map (fun q => q.1))).flatten

/-- A finite universe containing the start unit and every name of the table:
the visited set only ever grows inside it, so its size bounds the recursion
depth of the search. -/
def searchUniverse (factors : Table) (start : String) : List String :=
  (start :: allUnitNames factors).dedup

/-- The top-level call `find_conversion_path(from_unit, to_unit)` with a fresh
visited set, run at a fuel that is provably sufficient. -/
def find_conversion_path (factors : Table) (from_unit to_unit : String) :
    Option ConvPath :=
  match findAux factors to_unit ((searchUniverse factors from_unit).length + 1)
      from_unit [] with
  | some (p, _) => p
  | none => none

/-- The exceptions raised by `unit_converter.py`: `FileNotFoundError` on a
missing conversion file, `ValueError` on invalid JSON, and the `ValueError`
raised by `convert` when no conversion path exists. -/
inductive ConvError where
  | fileNotFound : String → ConvError
  | invalidJsonError : String → ConvError
  | noConversionPath : String → String → ConvError
deriving DecidableEq

/-- The message string carried by each exception. -/
def ConvError.message : ConvError → String
  | ConvError.fileNotFound p => "Conversion file not found: " ++ p
  | ConvError.invalidJsonError p => "Invalid JSON in conversion file: " ++ p
  | ConvError.noConversionPath a b =>
      "No conversion path found from '" ++ a ++ "' to '" ++ b ++ "'"

/-- The body of `UnitConverter.convert` after the conversion factors have been
obtained: identity check, direct edge, reverse edge, then graph search (where
a found path must be non-empty, matching Python truthiness of `if path:`),
multiplying the factors along the path into the value. -/
def convertPure (factors : Table) (value : ℚ) (from_unit to_unit : String) :
    Except ConvError ℚ :=
  if from_unit = to_unit then Except.ok value
  else
    match lookupEdge factors from_unit to_unit with
    | some f => Except.ok (value * f)
    | none =>
      match lookupEdge factors to_unit from_unit with
      | some f => Except.ok (value / f)
      | none =>
        match find_conversion_path factors from_unit to_unit with
        | some (e :: p) =>
            Except.ok ((e :: p).foldl (fun acc step => acc * step.2.2) value)
        | _ => Except.error (ConvError.noConversionPath from_unit to_unit)

/-- Contents of a conversion source: missing file, unparsable JSON, or a
well-formed table. -/
inductive SourceState where
  | missing : SourceState
  | invalidJson : SourceState
  | table : Table → SourceState
deriving DecidableEq

/-- The sources visible to the loader: a map from path to contents. -/
def SourceMap : Type := String → SourceState

/-- The process-wide mutable class state of `UnitConverter`: the cached table
`_conversion_factors` and the default source `_default_conversion_file`. -/
structure ConverterState where
  conversion_factors : Option Table
  default_conversion_file : String
deriving DecidableEq

/-- `UnitConverter._get_conversion_factors(file_path)`: return the cached
table when one exists (before ever looking at the argument), otherwise load
from the explicit path or from the default, caching the result.  Returns the
outcome together with the updated class state. -/
def get_conversion_factors (fs : SourceMap) (s : ConverterState)
    (file_path : Option String) : Except ConvError Table × ConverterState :=
  match s.conversion_factors with
  | some t => (Except.ok t, s)
  | none =>
    let fp := file_path.getD s.default_conversion_file
    match fs fp with
    | SourceState.table t =>
        (Except.ok t, ConverterState.mk (some t) s.default_conversion_file)
    | SourceState.missing => (Except.error (ConvError.fileNotFound fp), s)
    | SourceState.invalidJson => (Except.error (ConvError.invalidJsonError fp), s)

/-- `UnitConverter.set_conversion_file(file_path)`: clear the cache, eagerly
load the new file (an exception propagates with the cache already cleared),
and only on success update the default path. -/
def set_conversion_file (fs : SourceMap) (s : ConverterState)
    (file_path : String) : Except ConvError Unit × ConverterState :=
  let s1 := ConverterState.mk none s.default_conversion_file
  match get_conversion_factors fs s1 (some file_path) with
  | (Except.ok _, s2) =>
      (Except.ok (), ConverterState.mk s2.conversion_factors file_path)
  | (Except.error e, s2) => (Except.error e, s2)

/-- `UnitConverter.convert(value, from_unit, to_unit, conversion_file)`:
obtain the (possibly cached) factors first, then run the conversion. -/
def convert (fs : SourceMap) (s : ConverterState) (value : ℚ)
    (from_unit to_unit : String) (conversion_file : Option String) :
    Except ConvError ℚ × ConverterState :=
  match get_conversion_factors fs s conversion_file with
  | (Except.ok factors, s') => (convertPure factors value from_unit to_unit, s')
  | (Except.error e, s') => (Except.error e, s')

/-- `UnitConverter.get_available_units(conversion_file)`: the keys of the
table. -/
def get_available_units (fs : SourceMap) (s : ConverterState)
    (conversion_file : Option String) :
    Except ConvError (List String) × ConverterState :=
  match get_conversion_factors fs s conversion_file with
  | (Except.ok factors, s') => (Except.ok (factors.map (fun p => p.1)), s')
  | (Except.error e, s') => (Except.error e, s')

/-- The set built by `UnitConverter.get_compatible_units`: targets of the
unit's outgoing edges, plus all units having an edge into it. -/
def get_compatible_units_pure (factors : Table) (unit : String) : Finset String :=
  let compatible : Finset String :=
    match lookupUnit factors unit with
    | some l => l.foldl (fun st q => insert q.1 st) ∅
    | none => ∅
  factors.foldl
    (fun st p => if (p.2.find? (fun q => q.1 == unit)).isSome
      then insert p.1 st else st) compatible

/-- `UnitConverter.get_compatible_units(unit, conversion_file)`. -/
def get_compatible_units (fs : SourceMap) (s : ConverterState) (unit : String)
    (conversion_file : Option String) :
    Except ConvError (Finset String) × ConverterState :=
  match get_conversion_factors fs s conversion_file with
  | (Except.ok factors, s') => (Except.ok (get_compatible_units_pure factors unit), s')
  | (Except.error e, s') => (Except.error e, s')

/-- The table has a (forward) edge from `a` to `b`. -/
def isEdge (factors : Table) (a b : String) : Prop :=
  (lookupEdge factors a b).isSome = true

/-- `b` is reachable from `a` by a non-empty chain of forward edges. -/
def ReachesFwd (factors : Table) : String → String → Prop :=
  Relation.TransGen (isEdge factors)

/-! Concrete tables, sources and states used in scenarios, witnesses and
counterexamples. -/

/-- The spec scenario table `{"lb": {"oz": 16}, "oz": {"g": 28.35}}`. -/
def tableA : Table := [("lb", [("oz", 16)]), ("oz", [("g", 567 / 20)])]

/-- A second table, `{"cup": {"ml": 236.59}}`. -/
def tableB : Table := [("cup", [("ml", 23659 / 100)])]

/-- A table where the first depth-first path from "a" to "c" is not the
chain through "b". -/
def tableChainCex : Table :=
  [("a", [("d", 5), ("b", 2)]), ("d", [("c", 7)]), ("b", [("c", 3)])]

/-- A one-entry table with a self-loop of factor 2. -/
def tableLoop : Table := [("a", [("a", 2)])]

/-- A table with `a→b` of factor 2 and an inconsistent stored reverse
`b→a` of factor 10. -/
def tableOverride : Table := [("a", [("b", 2)]), ("b", [("a", 10)])]

/-- A cyclic table `a→b→a`. -/
def tableCyc : Table := [("a", [("b", 2)]), ("b", [("a", 1 / 2)])]

/-- A table where "c" is reachable from "a" only by traversing the edge
`c→b` backwards at the intermediate node "b". -/
def tableRevMid : Table := [("a", [("b", 2)]), ("c", [("b", 3)])]

/-- A source map where every path is missing. -/
def fsMissing : SourceMap := fun _ => SourceState.missing

/-- A demo source map: the default file holds `tableA`, "other.json" holds
`tableB`, and everything else is missing. -/
def fsDemo : SourceMap := fun p =>
  if p = "conversions.json" then SourceState.table tableA
  else if p = "other.json" then SourceState.table tableB
  else SourceState.missing

/-- Initial class state: empty cache, default path "conversions.json". -/
def sInit : ConverterState := ConverterState.mk none "conversions.json"

/-- State after the default table has been loaded. -/
def sCached : ConverterState := ConverterState.mk (some tableA) "conversions.json"

/-! Basic lemmas about the visited set and the unfolding of the search. -/

lemma mem_addVisited {x u : String} {v : List String} :
    x ∈ addVisited u v ↔ x = u ∨ x ∈ v := by
  unfold addVisited
  by_cases h : u ∈ v
  · simp only [if_pos h]
    constructor
    · exact fun hx => Or.inr hx
    · intro hx
      rcases hx with hx | hx
      · rw [hx]; exact h
      · exact hx
  · simp [if_neg h]

lemma subset_addVisited (u : String) (v : List String) : v ⊆ addVisited u v :=
  fun _ hx => mem_addVisited.mpr (Or.inr hx)

lemma self_mem_addVisited (u : String) (v : List String) : u ∈ addVisited u v :=
  mem_addVisited.mpr (Or.inl rfl)

lemma goAux_nil (find : String → List String → Option (Option ConvPath × List String))
    (current : String) (visited : List String) :
    goAux find current [] visited = some (none, visited) := rfl

lemma goAux_cons_mem (find : String → List String → Option (Option ConvPath × List String))
    (current inter : String) (f : ℚ) (rest : List (String × ℚ)) (visited : List String)
    (h : inter ∈ visited) :
    goAux find current ((inter, f) :: rest) visited = goAux find current rest visited := by
  simp [goAux, h]

lemma goAux_cons_stuck (find : String → List String → Option (Option ConvPath × List String))
    (current inter : String) (f : ℚ) (rest : List (String × ℚ)) (visited : List String)
    (h : ¬ inter ∈ visited) (hf : find inter visited = none) :
    goAux find current ((inter, f) :: rest) visited = none := by
  simp [goAux, h, hf]

lemma goAux_cons_found (find : String → List String → Option (Option ConvPath × List String))
    (current inter : String) (f : ℚ) (rest : List (String × ℚ)) (visited : List String)
    {p : ConvPath} {v' : List String}
    (h : ¬ inter ∈ visited) (hf : find inter visited = some (some p, v')) :
    goAux find current ((inter, f) :: rest) visited =
      some (some ((current, inter, f) :: p), v') := by
  simp [goAux, h, hf]

lemma goAux_cons_failed (find : String → List String → Option (Option ConvPath × List String))
    (current inter : String) (f : ℚ) (rest : List (String × ℚ)) (visited : List String)
    {v' : List String}
    (h : ¬ inter ∈ visited) (hf : find inter visited = some (none, v')) :
    goAux find current ((inter, f) :: rest) visited = goAux find current rest v' := by
  simp [goAux, h, hf]

lemma findAux_zero (factors : Table) (target current : String) (visited : List String) :
    findAux factors target 0 current visited = none := rfl

lemma findAux_succ_direct {factors : Table} {target : String} (fuel : Nat)
    (current : String) (visited : List String) {f : ℚ}
    (h : lookupEdge factors current target = some f) :
    findAux factors target (fuel + 1) current visited =
      some (some [(current, target, f)], addVisited current visited) := by
  simp [findAux, h]

lemma findAux_succ_search {factors : Table} {target : String} (fuel : Nat)
    (current : String) (visited : List String)
    (h : lookupEdge factors current target = none) :
    findAux factors target (fuel + 1) current visited =
      goAux (findAux factors target fuel) current (neighbors factors current)
        (addVisited current visited) := by
  simp [findAux, h]

/-! The termination measure: how many elements of a finite universe `U` are
not yet visited. -/

lemma filter_not_mem_anti (U : List String) {v1 v2 : List String} (h : v1 ⊆ v2) :
    (U.filter (fun x => decide (¬ x ∈ v2))).length ≤
      (U.filter (fun x => decide (¬ x ∈ v1))).length := by
  apply List.Sublist.length_le
  apply List.monotone_filter_right
  intro x hx
  simp only [decide_eq_true_eq] at hx ⊢
  exact fun hm => hx (h hm)

lemma filter_addVisited_lt {U v : List String} {c : String}
    (hc : c ∈ U) (hv : ¬ c ∈ v) :
    (U.filter (fun x => decide (¬ x ∈ addVisited c v))).length <
      (U.filter (fun x => decide (¬ x ∈ v))).length := by
  have hsub : List.Sublist (U.filter (fun x => decide (¬ x ∈ addVisited c v)))
      (U.filter (fun x => decide (¬ x ∈ v))) := by
    apply List.monotone_filter_right
    intro x hx
    simp only [decide_eq_true_eq] at hx ⊢
    exact fun hm => hx (subset_addVisited c v hm)
  refine Nat.lt_of_le_of_ne hsub.length_le ?_
  intro hlen
  have heq := hsub.eq_of_length hlen
  have hcmem : c ∈ U.filter (fun x => decide (¬ x ∈ v)) :=
    List.mem_filter.mpr ⟨hc, by simpa using hv⟩
  rw [← heq] at hcmem
  have := (List.mem_filter.mp hcmem).2
  simp [self_mem_addVisited] at this

/-! Unit names appearing in the table. -/

lemma key_mem_allUnitNames {factors : Table} {u : String} {l : List (String × ℚ)}
    (h : lookupUnit factors u = some l) : u ∈ allUnitNames factors := by
  unfold lookupUnit at h
  cases hf : factors.find? (fun p => p.1 == u) with
  | none => rw [hf] at h; cases h
  | some q =>
    have hq : q ∈ factors := List.mem_of_find?_eq_some hf
    have hqu : q.1 = u := by
      have := List.find?_some hf
      simpa using this
    unfold allUnitNames
    rw [List.mem_flatten]
    refine ⟨q.1 :: q.2.map (fun r => r.1), List.mem_map_of_mem _ hq, ?_⟩
    rw [hqu]
    exact List.mem_cons_self u _

lemma target_mem_allUnitNames {factors : Table} {u m : String}
    {l : List (String × ℚ)} {f : ℚ}
    (h : lookupUnit factors u = some l) (hm : (m, f) ∈ l) :
    m ∈ allUnitNames factors := by
  unfold lookupUnit at h
  cases hf : factors.find? (fun p => p.1 == u) with
  | none => rw [hf] at h; cases h
  | some q =>
    have hq : q ∈ factors := List.mem_of_find?_eq_some hf
    have hql : q.2 = l := by
      rw [hf] at h
      simpa using h
    unfold allUnitNames
    rw [List.mem_flatten]
    refine ⟨q.1 :: q.2.map (fun r => r.1), List.mem_map_of_mem _ hq, ?_⟩
    apply List.mem_cons_of_mem
    rw [hql]
    exact List.mem_map_of_mem _ hm

lemma neighbors_target_mem {factors : Table} {u m : String} {f : ℚ}
    (hm : (m, f) ∈ neighbors factors u) : m ∈ allUnitNames factors := by
  unfold neighbors at hm
  cases hl : lookupUnit factors u with
  | none => rw [hl] at hm; cases hm
  | some l =>
    rw [hl] at hm
    exact target_mem_allUnitNames hl hm

/-! Fuel adequacy: at the fuel used by `find_conversion_path` the search never
hits the fuel-exhaustion branch, so it terminates with a definite answer on
every table, cyclic or not. -/

lemma findAux_complete_fuel (factors : Table) (target : String) (U : List String)
    (hAll : ∀ m : String, m ∈ allUnitNames factors → m ∈ U) :
    ∀ fuel : Nat, ∀ current : String, ∀ visited : List String,
      current ∈ U → ¬ current ∈ visited →
      (U.filter (fun x => decide (¬ x ∈ visited))).length < fuel →
      ∃ r v', findAux factors target fuel current visited = some (r, v') ∧
        visited ⊆ v' := by
  intro fuel
  induction fuel with
  | zero =>
    intro current visited _ _ hlt
    exact absurd hlt (Nat.not_lt_zero _)
  | succ fuel ih =>
    intro current visited hcU hcv hlt
    have hdec := filter_addVisited_lt hcU hcv
    have hlt1 : (U.filter (fun x => decide (¬ x ∈ addVisited current visited))).length
        < fuel := by omega
    cases he : lookupEdge factors current target with
    | some f =>
      exact ⟨some [(current, target, f)], addVisited current visited,
        findAux_succ_direct fuel current visited he, subset_addVisited current visited⟩
    | none =>
      have inner : ∀ l : List (String × ℚ),
          (∀ m : String, ∀ g : ℚ, (m, g) ∈ l → m ∈ U) →
          ∀ vis : List String,
            (U.filter (fun x => decide (¬ x ∈ vis))).length < fuel →
            ∃ r v', goAux (findAux factors target fuel) current l vis = some (r, v') ∧
              vis ⊆ v' := by
        intro l
        induction l with
        | nil =>
          intro _ vis _
          exact ⟨none, vis, goAux_nil _ current vis, fun _ hx => hx⟩
        | cons head rest ihl =>
          obtain ⟨inter, g⟩ := head
          intro hl vis hfv
          by_cases hiv : inter ∈ vis
          · obtain ⟨r, v', hr, hs⟩ :=
              ihl (fun m g' hm => hl m g' (List.mem_cons_of_mem _ hm)) vis hfv
            exact ⟨r, v', by rw [goAux_cons_mem _ _ _ _ _ _ hiv]; exact hr, hs⟩
          · have hIU : inter ∈ U := hl inter g (List.mem_cons_self _ _)
            obtain ⟨r0, v0, h0, hs0⟩ := ih inter vis hIU hiv hfv
            cases r0 with
            | some p =>
              exact ⟨some ((current, inter, g) :: p), v0,
                by rw [goAux_cons_found _ _ _ _ _ _ hiv h0], hs0⟩
            | none =>
              have hfv0 : (U.filter (fun x => decide (¬ x ∈ v0))).length < fuel :=
                Nat.lt_of_le_of_lt (filter_not_mem_anti U hs0) hfv
              obtain ⟨r1, v1, h1, hs1⟩ :=
                ihl (fun m g' hm => hl m g' (List.mem_cons_of_mem _ hm)) v0 hfv0
              exact ⟨r1, v1,
                by rw [goAux_cons_failed _ _ _ _ _ _ hiv h0]; exact h1,
                fun x hx => hs1 (hs0 hx)⟩
      have hneigh : ∀ m : String, ∀ g : ℚ, (m, g) ∈ neighbors factors current → m ∈ U :=
        fun m g hm => hAll m (neighbors_target_mem hm)
      obtain ⟨r, v', hg, hs⟩ :=
        inner (neighbors factors current) hneigh (addVisited current visited) hlt1
      exact ⟨r, v',
        by rw [findAux_succ_search fuel current visited he]; exact hg,
        fun x hx => hs (subset_addVisited current visited hx)⟩

/-! Soundness: any path returned by the search follows only forward edges of
the table (reverse edges are never traversed transitively). -/

lemma neighbors_isEdge {factors : Table} {current m : String} {f : ℚ}
    (h : (m, f) ∈ neighbors factors current) : isEdge factors current m := by
  unfold neighbors at h
  cases hl : lookupUnit factors current with
  | none => rw [hl] at h; cases h
  | some l =>
    rw [hl] at h
    unfold isEdge lookupEdge
    rw [hl]
    have : (l.find? (fun q => q.1 == m)).isSome := by
      rw [List.find?_isSome]
      exact ⟨(m, f), h, by simp⟩
    rw [Option.isSome_map']
    exact this

lemma findAux_sound (factors : Table) (target : String) :
    ∀ fuel : Nat, ∀ current : String, ∀ visited : List String,
      ∀ p : ConvPath, ∀ v' : List String,
      findAux factors target fuel current visited = some (some p, v') →
      ReachesFwd factors current target := by
  intro fuel
  induction fuel with
  | zero =>
    intro current visited p v' h
    rw [findAux_zero] at h
    cases h
  | succ fuel ih =>
    intro current visited p v' h
    cases he : lookupEdge factors current target with
    | some f =>
      exact Relation.TransGen.single (by simp [isEdge, he])
    | none =>
      rw [findAux_succ_search fuel current visited he] at h
      clear he
      revert h
      generalize addVisited current visited = vis0
      have inner : ∀ l : List (String × ℚ), ∀ vis : List String,
          (∀ m : String, ∀ g : ℚ, (m, g) ∈ l → isEdge factors current m) →
          goAux (findAux factors target fuel) current l vis = some (some p, v') →
          ReachesFwd factors current target := by
        intro l
        induction l with
        | nil =>
          intro vis _ hg
          rw [goAux_nil] at hg
          simp at hg
        | cons head rest ihl =>
          obtain ⟨inter, g⟩ := head
          intro vis hl hg
          by_cases hiv : inter ∈ vis
          · rw [goAux_cons_mem _ _ _ _ _ _ hiv] at hg
            exact ihl vis (fun m g' hm => hl m g' (List.mem_cons_of_mem _ hm)) hg
          · cases hfind : findAux factors target fuel inter vis with
            | none =>
              rw [goAux_cons_stuck _ _ _ _ _ _ hiv hfind] at hg
              cases hg
            | some rv =>
              obtain ⟨r0, v0⟩ := rv
              cases r0 with
              | some p0 =>
                have hreach : ReachesFwd factors inter target :=
                  ih inter vis p0 v0 hfind
                exact Relation.TransGen.head
                  (hl inter g (List.mem_cons_self _ _)) hreach
              | none =>
                rw [goAux_cons_failed _ _ _ _ _ _ hiv hfind] at hg
                exact ihl v0 (fun m g' hm => hl m g' (List.mem_cons_of_mem _ hm)) hg
      intro h
      exact inner (neighbors factors current) vis0
        (fun m g hm => neighbors_isEdge hm) h

lemma find_conversion_path_sound {factors : Table} {a b : String} {p : ConvPath}
    (h : find_conversion_path factors a b = some p) : ReachesFwd factors a b := by
  unfold find_conversion_path at h
  cases hf : findAux factors b ((searchUniverse factors a).length + 1) a [] with
  | none => rw [hf] at h; cases h
  | some rv =>
    obtain ⟨r, v'⟩ := rv
    rw [hf] at h
    cases r with
    | none => cases h
    | some p0 =>
      exact findAux_sound factors b _ a [] p0 v' hf

/-! Paths returned by the search are never empty. -/

lemma goAux_path_ne_nil
    (find : String → List String → Option (Option ConvPath × List String))
    (current : String) :
    ∀ l : List (String × ℚ), ∀ visited : List String,
      ∀ p : ConvPath, ∀ v' : List String,
      goAux find current l visited = some (some p, v') → p ≠ [] := by
  intro l
  induction l with
  | nil =>
    intro visited p v' h
    rw [goAux_nil] at h
    simp at h
  | cons head rest ihl =>
    obtain ⟨inter, g⟩ := head
    intro visited p v' h
    by_cases hiv : inter ∈ visited
    · rw [goAux_cons_mem _ _ _ _ _ _ hiv] at h
      exact ihl visited p v' h
    · cases hfind : find inter visited with
      | none =>
        rw [goAux_cons_stuck _ _ _ _ _ _ hiv hfind] at h
        cases h
      | some rv =>
        obtain ⟨r0, v0⟩ := rv
        cases r0 with
        | some p0 =>
          rw [goAux_cons_found _ _ _ _ _ _ hiv hfind] at h
          have : (current, inter, g) :: p0 = p := by
            have := congrArg (fun o => o.map (fun q => q.1)) h
            simpa using this
          rw [← this]
          simp
        | none =>
          rw [goAux_cons_failed _ _ _ _ _ _ hiv hfind] at h
          exact ihl v0 p v' h

lemma find_conversion_path_ne_nil {factors : Table} {a b : String} {p : ConvPath}
    (h : find_conversion_path factors a b = some p) : p ≠ [] := by
  unfold find_conversion_path at h
  cases hf : findAux factors b ((searchUniverse factors a).length + 1) a [] with
  | none => rw [hf] at h; cases h
  | some rv =>
    obtain ⟨r, v'⟩ := rv
    rw [hf] at h
    cases r with
    | none => cases h
    | some p0 =>
      have hp : p0 = p := by simpa using h
      rw [← hp]
      cases hfuel : (searchUniverse factors a).length + 1 with
      | zero => rw [hfuel, findAux_zero] at hf; cases hf
      | succ fuel =>
        rw [hfuel] at hf
        cases he : lookupEdge factors a b with
        | some f =>
          rw [findAux_succ_direct fuel a [] he] at hf
          have : [(a, b, f)] = p0 := by
            have := congrArg (fun o => o.map (fun q => q.1)) hf
            simpa using this
          rw [← this]
          simp
        | none =>
          rw [findAux_succ_search fuel a [] he] at hf
          exact goAux_path_ne_nil _ a _ _ p0 v' hf

/-! Claim theorems. -/

/-- C2 (amended): provided the conversion factors can be obtained (cached or
loadable), `convert(v, u, u)` returns `v` unchanged for every unit string
`u`, with no lookup into the table, hence for every table contents; but the
table load happens before the identity check, so it is not independent of
whether the source can be loaded (see the counterexample). -/
theorem convert_identity_of_load (fs : SourceMap) (s : ConverterState)
    (cf : Option String) (v : ℚ) (u : String) (t : Table) (s' : ConverterState)
    (h : get_conversion_factors fs s cf = (Except.ok t, s')) :
    convert fs s v u u cf = (Except.ok v, s') ∧
    ∀ factors : Table, convertPure factors v u u = Except.ok v := by
  have hid : ∀ factors : Table, convertPure factors v u u = Except.ok v := by
    intro factors
    unfold convertPure
    rw [if_pos rfl]
  refine ⟨?_, hid⟩
  unfold convert
  rw [h]
  show (convertPure t v u u, s') = (Except.ok v, s')
  rw [hid t]

/-- Witness for C2's amended theorem: identity conversion of an unknown unit
once the default table is loadable. -/
theorem convert_identity_of_load_witness :
    convert fsDemo sInit 5 "zzz" "zzz" none = (Except.ok 5, sCached) :=
  (convert_identity_of_load fsDemo sInit none 5 "zzz" tableA sCached
    (by with_unfolding_all rfl)).1

/-- C2 counterexample: with an empty cache and an unloadable source, the
identity conversion raises the load error instead of returning the value,
because the table is loaded before the identity check. -/
theorem convert_identity_cex :
    (convert fsMissing sInit 5 "x" "x" none).1 =
      Except.error (ConvError.fileNotFound "conversions.json") ∧
    (convert fsMissing sInit 5 "x" "x" none).1 ≠ Except.ok 5 := by
  have he : (convert fsMissing sInit 5 "x" "x" none).1 =
      Except.error (ConvError.fileNotFound "conversions.json") := by
    with_unfolding_all rfl
  refine ⟨he, ?_⟩
  rw [he]
  intro hcontra
  exact Except.noConfusion hcontra

/-- C4: the loader is a strict single-slot memoization: with a cached table,
a no-argument load returns it untouched regardless of the sources; and after
a switch to a different source, a no-argument load returns the most recently
loaded table, again regardless of the sources. -/
theorem loader_single_slot_cache (s : ConverterState) (t : Table)
    (hc : s.conversion_factors = some t) :
    (∀ fs : SourceMap, get_conversion_factors fs s none = (Except.ok t, s)) ∧
    (∀ fs fs' : SourceMap, ∀ p : String, ∀ t' : Table,
      fs p = SourceState.table t' →
      set_conversion_file fs s p =
        (Except.ok (), ConverterState.mk (some t') p) ∧
      get_conversion_factors fs' (ConverterState.mk (some t') p) none =
        (Except.ok t', ConverterState.mk (some t') p)) := by
  constructor
  · intro fs
    unfold get_conversion_factors
    rw [hc]
  · intro fs fs' p t' hp
    constructor
    · unfold set_conversion_file get_conversion_factors
      simp [hp]
    · unfold get_conversion_factors
      rfl

/-- Witness for C4: cached state ignores a missing source map, and a switch
to "other.json" makes its table the one returned by a no-argument load. -/
theorem loader_single_slot_cache_witness :
    get_conversion_factors fsMissing sCached none = (Except.ok tableA, sCached) ∧
    set_conversion_file fsDemo sCached "other.json" =
      (Except.ok (), ConverterState.mk (some tableB) "other.json") ∧
    get_conversion_factors fsMissing (ConverterState.mk (some tableB) "other.json") none =
      (Except.ok tableB, ConverterState.mk (some tableB) "other.json") := by
  have H := loader_single_slot_cache sCached tableA rfl
  have H2 := H.2 fsDemo fsMissing "other.json" tableB (by with_unfolding_all rfl)
  exact ⟨H.1 fsMissing, H2.1, H2.2⟩

/-- C5 (amended): for distinct units, a stored edge `a→b` with factor `f`
gives `convert(1, a, b) = f` by direct lookup, and — provided the table does
not also store a direct edge `b→a`, which would take priority — `convert(1,
b, a) = 1/f` by reverse lookup, even with no entry under `b` at all. -/
theorem direct_and_reverse_lookup (factors : Table) (a b : String) (f : ℚ)
    (hne : a ≠ b) (hf : lookupEdge factors a b = some f) :
    convertPure factors 1 a b = Except.ok f ∧
    (lookupEdge factors b a = none →
      convertPure factors 1 b a = Except.ok (1 / f)) := by
  constructor
  · unfold convertPure
    rw [if_neg hne]
    simp [hf]
  · intro hba
    unfold convertPure
    rw [if_neg (Ne.symm hne)]
    simp [hba, hf]

/-- Witness for C5's amended theorem on the scenario table: `lb→oz` has
factor 16 with no entry under `oz` back to `lb`. -/
theorem direct_and_reverse_lookup_witness :
    convertPure tableA 1 "lb" "oz" = Except.ok 16 ∧
    convertPure tableA 1 "oz" "lb" = Except.ok (1 / 16) := by
  have H := direct_and_reverse_lookup tableA "lb" "oz" 16 (by decide)
    (by with_unfolding_all rfl)
  exact ⟨H.1, H.2 (by with_unfolding_all rfl)⟩

/-- C5 counterexample: a stored (inconsistent) direct edge `b→a` takes
priority over the reverse lookup, and a self-loop edge is shadowed by the
identity check, so the claim fails as universally stated. -/
theorem direct_and_reverse_lookup_cex :
    (convertPure tableOverride 1 "b" "a" = Except.ok 10 ∧ (10 : ℚ) ≠ 1 / 2) ∧
    (convertPure tableLoop 1 "a" "a" = Except.ok 1 ∧ (1 : ℚ) ≠ 2) :=
  ⟨⟨by with_unfolding_all rfl, by norm_num⟩,
   ⟨by with_unfolding_all rfl, by norm_num⟩⟩

/-- C8: a table switch loads the new source eagerly, surfacing the load error
(missing file or invalid JSON) at switch time; on success the new source
becomes the cached table and the default, and `get_available_units` then
returns the new source's keys. -/
theorem switch_is_eager (fs : SourceMap) (s : ConverterState) (p : String) :
    (fs p = SourceState.missing →
      (set_conversion_file fs s p).1 = Except.error (ConvError.fileNotFound p)) ∧
    (fs p = SourceState.invalidJson →
      (set_conversion_file fs s p).1 = Except.error (ConvError.invalidJsonError p)) ∧
    (∀ t : Table, fs p = SourceState.table t →
      set_conversion_file fs s p = (Except.ok (), ConverterState.mk (some t) p) ∧
      ∀ fs' : SourceMap,
        get_available_units fs' (ConverterState.mk (some t) p) none =
          (Except.ok (t.map (fun q => q.1)), ConverterState.mk (some t) p)) := by
  refine ⟨?_, ?_, ?_⟩
  · intro hp
    unfold set_conversion_file get_conversion_factors
    simp [hp]
  · intro hp
    unfold set_conversion_file get_conversion_factors
    simp [hp]
  · intro t hp
    constructor
    · unfold set_conversion_file get_conversion_factors
      simp [hp]
    · intro fs'
      unfold get_available_units get_conversion_factors
      rfl

/-- Witness for C8: switching to a missing file fails at switch time, and a
successful switch to "other.json" makes `get_available_units` report the new
table's keys. -/
theorem switch_is_eager_witness :
    (set_conversion_file fsDemo sCached "nope.json").1 =
      Except.error (ConvError.fileNotFound "nope.json") ∧
    set_conversion_file fsDemo sCached "other.json" =
      (Except.ok (), ConverterState.mk (some tableB) "other.json") ∧
    get_available_units fsMissing (ConverterState.mk (some tableB) "other.json") none =
      (Except.ok ["cup"], ConverterState.mk (some tableB) "other.json") := by
  have H1 := (switch_is_eager fsDemo sCached "nope.json").1 (by with_unfolding_all rfl)
  have H2 := (switch_is_eager fsDemo sCached "other.json").2.2 tableB
    (by with_unfolding_all rfl)
  exact ⟨H1, H2.1, H2.2 fsMissing⟩

/-- C9: once a table is cached, every operation taking a per-call
`conversion_file` argument returns the cached table's answer with the state
unchanged, for every source map and every explicit argument — the cached
early return hands back the table before the argument is examined. -/
theorem cached_table_ignores_source_argument (fs : SourceMap) (s : ConverterState)
    (t : Table) (hc : s.conversion_factors = some t) (cf : Option String)
    (v : ℚ) (a b u : String) :
    get_conversion_factors fs s cf = (Except.ok t, s) ∧
    convert fs s v a b cf = (convertPure t v a b, s) ∧
    get_available_units fs s cf = (Except.ok (t.map (fun q => q.1)), s) ∧
    get_compatible_units fs s u cf = (Except.ok (get_compatible_units_pure t u), s) := by
  have h1 : get_conversion_factors fs s cf = (Except.ok t, s) := by
    unfold get_conversion_factors
    rw [hc]
  refine ⟨h1, ?_, ?_, ?_⟩
  · unfold convert
    rw [h1]
  · unfold get_available_units
    rw [h1]
  · unfold get_compatible_units
    rw [h1]

/-- Witness for C9: with `tableA` cached, an explicit "other.json" argument
is ignored even though every source is missing. -/
theorem cached_table_ignores_source_argument_witness :
    get_conversion_factors fsMissing sCached (some "other.json") =
      (Except.ok tableA, sCached) ∧
    convert fsMissing sCached 1 "lb" "g" (some "other.json") =
      (convertPure tableA 1 "lb" "g", sCached) ∧
    get_available_units fsMissing sCached (some "other.json") =
      (Except.ok ["lb", "oz"], sCached) ∧
    get_compatible_units fsMissing sCached "oz" (some "other.json") =
      (Except.ok (get_compatible_units_pure tableA "oz"), sCached) :=
  cached_table_ignores_source_argument fsMissing sCached tableA rfl
    (some "other.json") 1 "lb" "g" "oz"

/-- C10: when a switch fails because the new source cannot be loaded, the
exception propagates with the cache already cleared and the default path not
yet updated, so a subsequent no-argument load re-reads the previously active
source. -/
theorem failed_switch_keeps_previous_default (fs : SourceMap) (s : ConverterState)
    (p : String)
    (hp : fs p = SourceState.missing ∨ fs p = SourceState.invalidJson) :
    (set_conversion_file fs s p).1 ≠ Except.ok () ∧
    (set_conversion_file fs s p).2 =
      ConverterState.mk none s.default_conversion_file ∧
    (∀ t : Table, fs s.default_conversion_file = SourceState.table t →
      get_conversion_factors fs (set_conversion_file fs s p).2 none =
        (Except.ok t, ConverterState.mk (some t) s.default_conversion_file)) := by
  have hstate : (set_conversion_file fs s p).2 =
      ConverterState.mk none s.default_conversion_file := by
    rcases hp with hp | hp <;>
      · unfold set_conversion_file get_conversion_factors
        simp [hp]
  refine ⟨?_, hstate, ?_⟩
  · rcases hp with hp | hp <;>
      · unfold set_conversion_file get_conversion_factors
        simp [hp]
  · intro t ht
    rw [hstate]
    unfold get_conversion_factors
    simp [ht]

/-- Witness for C10: a failed switch to "nope.json" leaves the default at
"conversions.json", which a no-argument load then re-reads. -/
theorem failed_switch_keeps_previous_default_witness :
    (set_conversion_file fsDemo sInit "nope.json").1 ≠ Except.ok () ∧
    (set_conversion_file fsDemo sInit "nope.json").2 =
      ConverterState.mk none "conversions.json" ∧
    get_conversion_factors fsDemo (set_conversion_file fsDemo sInit "nope.json").2 none =
      (Except.ok tableA, ConverterState.mk (some tableA) "conversions.json") := by
  have H := failed_switch_keeps_previous_default fsDemo sInit "nope.json"
    (Or.inl (by with_unfolding_all rfl))
  exact ⟨H.1, H.2.1, H.2.2 tableA (by with_unfolding_all rfl)⟩

/-! Helpers for the remaining claims. -/

lemma two_le_length_of_mem_ne {α : Type} {l : List α} {x y : α}
    (hx : x ∈ l) (hy : y ∈ l) (hne : x ≠ y) : 2 ≤ l.length := by
  cases l with
  | nil => cases hx
  | cons z zs =>
    simp only [List.length_cons]
    rcases List.mem_cons.mp hx with hx1 | hx1
    · rcases List.mem_cons.mp hy with hy1 | hy1
      · exact absurd (hx1.trans hy1.symm) hne
      · have := List.length_pos.mpr (List.ne_nil_of_mem hy1)
        omega
    · have := List.length_pos.mpr (List.ne_nil_of_mem hx1)
      omega

lemma start_mem_searchUniverse (factors : Table) (start : String) :
    start ∈ searchUniverse factors start := by
  unfold searchUniverse
  rw [List.mem_dedup]
  exact List.mem_cons_self _ _

lemma allUnitNames_mem_searchUniverse {factors : Table} {m : String}
    (start : String) (hm : m ∈ allUnitNames factors) :
    m ∈ searchUniverse factors start := by
  unfold searchUniverse
  rw [List.mem_dedup]
  exact List.mem_cons_of_mem _ hm

/-- C3: reverse edges are consulted only by the top-level direct and
reverse lookups; the recursive search follows only forward edges, so when
the target is not forward-reachable (and no direct or top-level reverse
edge exists, and the units differ) `convert` fails with
`NoConversionPath`. -/
theorem search_reverse_not_transitive (factors : Table) (v : ℚ) (a b : String)
    (hne : a ≠ b) (hd : lookupEdge factors a b = none)
    (hr : lookupEdge factors b a = none)
    (hreach : ¬ ReachesFwd factors a b) :
    convertPure factors v a b = Except.error (ConvError.noConversionPath a b) := by
  have hfind : find_conversion_path factors a b = none := by
    cases hf : find_conversion_path factors a b with
    | none => rfl
    | some p => exact absurd (find_conversion_path_sound hf) hreach
  unfold convertPure
  rw [if_neg hne]
  simp [hd, hr, hfind]

lemma lookupUnit_tableRevMid (x : String) :
    lookupUnit tableRevMid x = none ∨
    lookupUnit tableRevMid x = some [("b", (2 : ℚ))] ∨
    lookupUnit tableRevMid x = some [("b", (3 : ℚ))] := by
  unfold lookupUnit tableRevMid
  by_cases h1 : ("a" : String) = x
  · right; left
    simp [List.find?, h1]
  · have hb1 : (("a" : String) == x) = false := beq_eq_false_iff_ne.mpr h1
    by_cases h2 : ("c" : String) = x
    · have hb2 : (("c" : String) == x) = true := beq_iff_eq.mpr h2
      right; right
      simp [List.find?, hb1, hb2]
    · have hb2 : (("c" : String) == x) = false := beq_eq_false_iff_ne.mpr h2
      left
      simp [List.find?, hb1, hb2]

lemma isEdge_tableRevMid {x y : String} (h : isEdge tableRevMid x y) : y = "b" := by
  unfold isEdge lookupEdge at h
  rcases lookupUnit_tableRevMid x with hu | hu | hu <;> rw [hu] at h
  · simp at h
  · rw [Option.isSome_map', List.find?_isSome] at h
    obtain ⟨q, hq, hqy⟩ := h
    have hq1 : q = ("b", (2 : ℚ)) := by simpa using hq
    rw [hq1] at hqy
    have : ("b" : String) = y := by simpa using hqy
    exact this.symm
  · rw [Option.isSome_map', List.find?_isSome] at h
    obtain ⟨q, hq, hqy⟩ := h
    have hq1 : q = ("b", (3 : ℚ)) := by simpa using hq
    rw [hq1] at hqy
    have : ("b" : String) = y := by simpa using hqy
    exact this.symm

lemma no_fwd_reach_tableRevMid : ¬ ReachesFwd tableRevMid "a" "c" := by
  intro h
  cases h with
  | single he => exact absurd (isEdge_tableRevMid he) (by decide)
  | tail h1 he => exact absurd (isEdge_tableRevMid he) (by decide)

/-- Witness for C3: on `tableRevMid` the unit "c" can only be reached from
"a" by using the edge `c→b` backwards at the intermediate node "b", and the
search does not do that, so the conversion fails. -/
theorem search_reverse_not_transitive_witness :
    convertPure tableRevMid 1 "a" "c" =
      Except.error (ConvError.noConversionPath "a" "c") :=
  search_reverse_not_transitive tableRevMid 1 "a" "c" (by decide)
    (by with_unfolding_all rfl) (by with_unfolding_all rfl)
    no_fwd_reach_tableRevMid

/-- C6: the search always terminates with a definite answer — at the fuel
used by `find_conversion_path` the fuel-exhaustion branch is unreachable on
every table (cyclic or not, for every pair of units), the visited set doing
the bounding — and on the cyclic table `a→b→a` a search for an unreachable
unit terminates with `NoConversionPath`. -/
theorem search_always_terminates :
    (∀ factors : Table, ∀ from_unit to_unit : String,
      (findAux factors to_unit ((searchUniverse factors from_unit).length + 1)
        from_unit []).isSome = true) ∧
    convertPure tableCyc 1 "a" "z" =
      Except.error (ConvError.noConversionPath "a" "z") := by
  constructor
  · intro factors from_unit to_unit
    have hcount : ((searchUniverse factors from_unit).filter
        (fun x => decide (¬ x ∈ ([] : List String)))).length <
        (searchUniverse factors from_unit).length + 1 := by
      have heq : (searchUniverse factors from_unit).filter
          (fun x => decide (¬ x ∈ ([] : List String))) =
          searchUniverse factors from_unit := by
        apply List.filter_eq_self.mpr
        intro x _
        simp
      rw [heq]
      omega
    obtain ⟨r, v', hr, _⟩ := findAux_complete_fuel factors to_unit
      (searchUniverse factors from_unit)
      (fun m hm => allUnitNames_mem_searchUniverse from_unit hm)
      ((searchUniverse factors from_unit).length + 1) from_unit []
      (start_mem_searchUniverse factors from_unit) (by simp) hcount
    rw [hr]
    rfl
  · with_unfolding_all rfl

/-- C7: `convert` raises `NoConversionPath` exactly when the units differ,
no direct and no top-level reverse edge exists, and the graph search is
exhausted without success; the error names both units and its message spells
them out; on the empty table two distinct units always fail this way. -/
theorem no_conversion_path_error_iff (factors : Table) (v : ℚ) (a b : String) :
    (∀ e : ConvError, convertPure factors v a b = Except.error e ↔
      (e = ConvError.noConversionPath a b ∧ a ≠ b ∧
        lookupEdge factors a b = none ∧ lookupEdge factors b a = none ∧
        find_conversion_path factors a b = none)) ∧
    (ConvError.noConversionPath a b).message =
      "No conversion path found from '" ++ a ++ "' to '" ++ b ++ "'" ∧
    convertPure ([] : Table) 1 "x" "y" =
      Except.error (ConvError.noConversionPath "x" "y") := by
  refine ⟨?_, rfl, by with_unfolding_all rfl⟩
  intro e
  constructor
  · intro h
    unfold convertPure at h
    by_cases hab : a = b
    · rw [if_pos hab] at h
      cases h
    · rw [if_neg hab] at h
      cases hd : lookupEdge factors a b with
      | some f =>
        rw [hd] at h
        cases h
      | none =>
        rw [hd] at h
        cases hr : lookupEdge factors b a with
        | some f =>
          rw [hr] at h
          cases h
        | none =>
          rw [hr] at h
          cases hp : find_conversion_path factors a b with
          | some p =>
            cases p with
            | nil => exact absurd rfl (find_conversion_path_ne_nil hp)
            | cons e0 p0 =>
              rw [hp] at h
              cases h
          | none =>
            rw [hp] at h
            have he : ConvError.noConversionPath a b = e := by
              injection h
            exact ⟨he.symm, hab, rfl, rfl, rfl⟩
  · rintro ⟨he, hab, hd, hr, hp⟩
    subst he
    unfold convertPure
    rw [if_neg hab]
    simp [hd, hr, hp]

/-- C1 (amended): when `a`'s only outgoing edge is `a→b` with factor `f1`,
`b→c` has factor `f2`, there is no direct `a→c` entry, no reverse `c→a`
entry, and `a ≠ c`, the depth-first search finds the chain and
`convert(v, a, c) = v*f1*f2`.  (Without these side conditions the search may
return a different first path, or the top-level reverse lookup may fire; see
the counterexample.) -/
theorem convert_composes_chain (factors : Table) (v f1 f2 : ℚ) (a b c : String)
    (hab : lookupUnit factors a = some [(b, f1)])
    (hbc : lookupEdge factors b c = some f2)
    (hac : lookupEdge factors a c = none)
    (hca : lookupEdge factors c a = none)
    (hne : a ≠ c) :
    convertPure factors v a c = Except.ok (v * f1 * f2) := by
  have hba : b ≠ a := by
    intro hcontra
    rw [hcontra] at hbc
    rw [hac] at hbc
    cases hbc
  have haU : a ∈ searchUniverse factors a := start_mem_searchUniverse factors a
  have hbU : b ∈ searchUniverse factors a :=
    allUnitNames_mem_searchUniverse a
      (target_mem_allUnitNames hab (List.mem_cons_self _ _))
  have h2 : 2 ≤ (searchUniverse factors a).length :=
    two_le_length_of_mem_ne haU hbU (fun hxy => hba hxy.symm)
  obtain ⟨k, hk⟩ : ∃ k, (searchUniverse factors a).length = k + 2 :=
    ⟨(searchUniverse factors a).length - 2, by omega⟩
  have hfind : find_conversion_path factors a c = some [(a, b, f1), (b, c, f2)] := by
    unfold find_conversion_path
    rw [hk]
    rw [findAux_succ_search (k + 2) a [] hac]
    rw [show neighbors factors a = [(b, f1)] from by unfold neighbors; rw [hab]; rfl]
    rw [show addVisited a [] = [a] from by unfold addVisited; simp]
    have hbnot : ¬ b ∈ [a] := by simp [hba]
    have hfb : findAux factors c (k + 2) b [a] =
        some (some [(b, c, f2)], addVisited b [a]) :=
      findAux_succ_direct (k + 1) b [a] hbc
    rw [goAux_cons_found _ _ _ _ _ _ hbnot hfb]
  unfold convertPure
  rw [if_neg hne]
  simp only [hac, hca, hfind]
  rfl

/-- Witness for C1: the spec scenario, `convert(2, "lb", "g")` on the table
`{"lb": {"oz": 16}, "oz": {"g": 28.35}}` gives `2*16*28.35 = 907.2`. -/
theorem convert_composes_chain_witness :
    convertPure tableA 2 "lb" "g" = Except.ok (2 * 16 * (567 / 20)) ∧
    (2 * 16 * (567 / 20) : ℚ) = 4536 / 5 :=
  ⟨convert_composes_chain tableA 2 16 (567 / 20) "lb" "oz" "g"
      (by with_unfolding_all rfl) (by with_unfolding_all rfl)
      (by with_unfolding_all rfl) (by with_unfolding_all rfl) (by decide),
    by norm_num⟩

/-- C1 counterexample: with edges `a→b→c` of factors 2 and 3, no direct
`a→c`, but an earlier neighbor `d` of `a` also leading to `c`, the search
returns the first depth-first path (through `d`, product 35), not
`v*f1*f2 = 6`. -/
theorem convert_composes_chain_cex :
    convertPure tableChainCex 1 "a" "c" = Except.ok 35 ∧ (35 : ℚ) ≠ 1 * 2 * 3 := by
  constructor
  · with_unfolding_all rfl
  · norm_num

end UnitConverter
